import Mathlib

/-!
Shallow embedding of the `new-app` scaffolding tool (`src/main.js`) and proofs
about its revision resolution, tree fetching, path filtering, transport
classification and concurrent download engine.

JavaScript strings are modelled as `List Char`; machine-level side effects
(HTTP responses, JSON parsing, gzip decoding, filesystem checks, per-file
download outcomes) are modelled as explicit inputs so that every function of
the source becomes a pure Lean function of the code's actual decisions.
-/

set_option maxRecDepth 4096

deriving instance DecidableEq for Except

/-- The error table of `main.js` (`const errors = {...}`, lines 17-30).  Each
constructor carries the data the corresponding factory closes over.  `jsTypeError`
models the uncaught TypeError raised when `sourceParts[0]` is `undefined`
(e.g. a source argument consisting only of `#` characters). -/
inductive Err where
  | projectNameRequired
  | desitnationRequired
  | destinationExists (path : List Char)
  | networkError (url : List Char)
  | serverError (url : List Char) (detail : List Char)
  | badData
  | repoNotFound (repo : List Char) (hash : List Char)
  | repoPathNotFound (repo : List Char) (path : List Char)
  | repoTooBig
  | fileSystem (path : List Char)
  | cantMakeDir (path : List Char)
  | cantWriteFile (path : List Char)
  | jsTypeError
deriving DecidableEq

/-- The user-visible message of each error, from the `newError` calls in the
`errors` table.  Note the table contains no "repository is empty" message. -/
def errMessage : Err → List Char
  | .projectNameRequired => "Project name is required.".data
  | .desitnationRequired => "Destination directory is required.".data
  | .destinationExists _ => "Directory already exists.".data
  | .networkError _ => "Network error.".data
  | .serverError _ _ => "Server error.".data
  | .badData => "Unable to read data.".data
  | .repoNotFound _ _ => "Repository, branch, or tag not found.".data
  | .repoPathNotFound _ _ => "Repository path not found.".data
  | .repoTooBig => "Repository is too large.".data
  | .fileSystem _ => "Unable to access path.".data
  | .cantMakeDir _ => "Unable to create directory.".data
  | .cantWriteFile _ => "Unable to write file.".data
  | .jsTypeError => "TypeError".data

/-- The `withHelp` flag passed to `newError`: only the two argument errors
print the usage hint. -/
def errWithHelp : Err → Bool
  | .projectNameRequired => true
  | .desitnationRequired => true
  | _ => false

/-- A remote file as produced by `getRepoFiles`: a repository-relative (after
filtering, destination-relative) path and a download url. -/
structure RFile where
  path : List Char
  url : List Char
deriving DecidableEq

/-- The observable outcome of one `https.get`: either the connection fails
(`https.get`'s `error` event) or a response arrives with a status code, the
`content-length` and `content-encoding` headers (absent headers are `none`),
a status message and a raw (possibly compressed) body. -/
inductive HttpEvent where
  | connFail
  | resp (status : Nat) (contentLength : Option (List Char))
      (contentEncoding : Option (List Char)) (statusMessage : List Char)
      (rawBody : List Char)
deriving DecidableEq

/-- The stream a `request` result exposes.  `gunzipped raw` is
`response.pipe(zlib.createGunzip())`: the raw body run through the streaming
gzip decompressor.  `identity raw` is a stream of the raw bytes with no
decoding; the code's `request` never builds one (it exists so that the
behaviour the spec describes - decode only on compressed transfer encoding -
is expressible and comparable). -/
inductive BodyStream where
  | gunzipped (raw : List Char)
  | identity (raw : List Char)
deriving DecidableEq

/-- The value `request` resolves with: the `{ found, stream }` object
(`stream = none` models the `{ found: true }` / `{ found: false }` returns). -/
structure ReqOk where
  found : Bool
  stream : Option BodyStream
deriving DecidableEq

/-- Model of `request(url)` (main.js lines 154-182).  A connection failure rejects with
`networkError`.  Otherwise: status 200 with a `content-length` header value
other than the literal `'0'` (including an absent header) pipes the response
through `zlib.createGunzip()` unconditionally and resolves
`{ found: true, stream }`; status 200 with `content-length` exactly `'0'`
resolves `{ found: true }` with no stream; 404 resolves `{ found: false }`;
any other status throws `serverError(url, statusMessage)`. -/
def request (url : List Char) : HttpEvent → Except Err ReqOk
  | .connFail => .error (.networkError url)
  | .resp status contentLength _ statusMessage rawBody =>
    if status = 200 ∧ contentLength ≠ some ['0'] then
      .ok ⟨true, some (.gunzipped rawBody)⟩
    else if status = 200 then .ok ⟨true, none⟩
    else if status = 404 then .ok ⟨false, none⟩
    else .error (.serverError url statusMessage)

/-- Modelled from the spec: the transport classification as claim C4 states
it, for comparison with `request`.  "HTTP 200 with a non-zero declared body
length → Found, body decoded by a streaming decompressor if the response
indicates compressed transfer encoding; zero declared body length → Found
with an empty body; 404 → NotFound; any other status → ServerError".  A 200
response that declares no body length at all is not classified by the claim,
hence `none` there. -/
def requestSpec (url : List Char) : HttpEvent → Option (Except Err ReqOk)
  | .connFail => some (.error (.networkError url))
  | .resp status contentLength contentEncoding statusMessage rawBody =>
    if status = 200 then
      match contentLength with
      | none => none
      | some l =>
        if l = ['0'] then some (.ok ⟨true, none⟩)
        else if contentEncoding = some "gzip".data then
          some (.ok ⟨true, some (.gunzipped rawBody)⟩)
        else some (.ok ⟨true, some (.identity rawBody)⟩)
    else if status = 404 then some (.ok ⟨false, none⟩)
    else some (.error (.serverError url statusMessage))

/-- Reading a `BodyStream` to completion: a gunzipped stream yields the
decoded bytes or fails (the gunzip stream's `error` event) as decided by the
`gunzip` model of `zlib`; an identity stream yields the raw bytes. -/
def streamRead (gunzip : List Char → Option (List Char)) :
    BodyStream → Option (List Char)
  | .gunzipped raw => gunzip raw
  | .identity raw => some raw

/-- Model of `fetch(url)` (main.js lines 123-135): returns `null` when the request is
not found or has no stream, otherwise collects the decoded stream into a
string; a decode failure rejects the awaited promise with `networkError`. -/
def fetch (gunzip : List Char → Option (List Char)) (url : List Char)
    (ev : HttpEvent) : Except Err (Option (List Char)) :=
  match request url ev with
  | .error e => .error e
  | .ok r =>
    if r.found then
      match r.stream with
      | none => .ok none
      | some s =>
        match streamRead gunzip s with
        | some data => .ok (some data)
        | none => .error (.networkError url)
    else .ok none

/-- The GitHub releases endpoint url built by `getLatestRelease`. -/
def releaseUrl (repo : List Char) : List Char :=
  "https://api.github.com/repos/".data ++ repo ++ "/releases/latest".data

/-- The GitHub tree endpoint url built by `getRepoFiles`. -/
def treeUrl (repo hash : List Char) : List Char :=
  "https://api.github.com/repos/".data ++ repo ++ "/git/trees/".data ++ hash
    ++ "?recursive=1".data

/-- The raw-content url `getRepoFiles` attaches to each blob entry. -/
def rawUrl (repo hash path : List Char) : List Char :=
  "https://raw.githubusercontent.com/".data ++ repo ++ ['/'] ++ hash ++ ['/'] ++ path

/-- Model of `getLatestRelease(repo)` (main.js lines 88-92), over the transport event
of the releases request.  When `fetch` returns `null` (404 or empty body),
`JSON.parse(null)` coerces its argument to the string `"null"` and parses it
to `null` without throwing, and `null && null.tag_name` is `null` - so the
function yields no tag.  A parsed body is abstracted by `parseRelease` to
`none` (JSON.parse throws: `badData`) or `some t` with `t` the value of
`parsed && parsed.tag_name` (`none` for a missing `tag_name` field or a falsy
parsed value). -/
def getLatestRelease (gunzip : List Char → Option (List Char))
    (parseRelease : List Char → Option (Option (List Char))) (repo : List Char)
    (ev : HttpEvent) : Except Err (Option (List Char)) :=
  match fetch gunzip (releaseUrl repo) ev with
  | .error e => .error e
  | .ok none => .ok none
  | .ok (some body) =>
    match parseRelease body with
    | none => .error .badData
    | some tag => .ok tag

/-- JavaScript `a || b` on a nullable string `a`:  `null`, `undefined` and
`''` are falsy. -/
def orFalsy (a : Option (List Char)) (b : List Char) : List Char :=
  match a with
  | none => b
  | some s => if s = [] then b else s

/-- The revision resolution of main.js line 76,
`repoHash || await getLatestRelease(repo) || 'master'`, with the release
lookup's outcome passed in:  a truthy explicit revision short-circuits (the
release endpoint is never queried), otherwise a fatal release outcome
propagates, otherwise a falsy tag falls through to the literal `'master'`. -/
def resolveRevision (repoHash : List Char)
    (rel : Except Err (Option (List Char))) : Except Err (List Char) :=
  if repoHash = [] then
    match rel with
    | .error e => .error e
    | .ok tag => .ok (orFalsy tag "master".data)
  else .ok repoHash

/-- Modelled from the spec: the three-step resolution claim C1 states -
explicit revision unchanged, else the latest release tag, else the default
branch declared by the repository metadata (which the code never queries). -/
def specResolveRevision (explicitRevision : List Char)
    (releaseTag : Option (List Char)) (defaultBranch : List Char) : List Char :=
  if explicitRevision ≠ [] then explicitRevision
  else
    match releaseTag with
    | some tag => tag
    | none => defaultBranch

/-- One entry of the parsed tree payload (`{type, path}`). -/
structure TreeNode where
  type : List Char
  path : List Char
deriving DecidableEq

/-- The parsed payload of the tree endpoint: the `truncated` flag and the
entry list. -/
structure TreePayload where
  truncated : Bool
  tree : List TreeNode
deriving DecidableEq

/-- Model of `getRepoFiles(repo, hash)` (main.js lines 94-107), over the transport
event of the tree request.  A `null` fetch result throws `repoNotFound`; an
unparseable body throws `badData`; a truncated payload throws `repoTooBig`
(before anything else looks at the tree); otherwise the `blob` entries become
`RFile`s with deterministically constructed raw urls.  There is no check for
an empty tree. -/
def getRepoFiles (gunzip : List Char → Option (List Char))
    (parseTree : List Char → Option TreePayload) (repo hash : List Char)
    (ev : HttpEvent) : Except Err (List RFile) :=
  match fetch gunzip (treeUrl repo hash) ev with
  | .error e => .error e
  | .ok none => .error (.repoNotFound repo hash)
  | .ok (some body) =>
    match parseTree body with
    | none => .error .badData
    | some payload =>
      if payload.truncated then .error .repoTooBig
      else
        .ok ((payload.tree.filter (fun node => node.type = "blob".data)).map
          (fun node => ⟨node.path, rawUrl repo hash node.path⟩))

/-- Model of `filterFilesByPath(files, path)` (main.js lines 219-225): with an empty
sub-path the prefix is `''`; otherwise the prefix is `path + '/'`, only files
whose path starts with it are kept, and each kept file's path loses the
prefix (`slice(prefix.length)`); urls are copied untouched. -/
def filterFilesByPath (files : List RFile) (path : List Char) : List RFile :=
  let pre := if path = [] then [] else path ++ ['/']
  (files.filter (fun file => pre.isPrefixOf file.path)).map
    (fun file => ⟨file.path.drop pre.length, file.url⟩)

/-- JavaScript `String.prototype.split(sep)` on a single-character separator:
always yields at least one (possibly empty) piece. -/
def jsSplit (sep : Char) : List Char → List (List Char)
  | [] => [[]]
  | c :: rest =>
    match jsSplit sep rest with
    | [] => [[c]]
    | piece :: pieces =>
      if c = sep then [] :: piece :: pieces else (c :: piece) :: pieces

/-- A network request observed during a run: an API metadata call (releases
or tree endpoint) or the raw-content download of one file. -/
inductive NetCall where
  | api (url : List Char)
  | raw (file : RFile)
deriving DecidableEq

/-- The per-file outcome of `download(url, filePath)` (main.js lines
137-152), as decided by the transport and the filesystem: the file streams to
disk completely; or the request resolves `{ found: false }` (the code throws
`serverError(url, 'NotFound')`); or the write stream errors mid-write
(`cantWriteFile`, a partial file is left on disk); or `request` itself throws
(network/server error) before the file is created. -/
inductive DOutcome where
  | success
  | notFound
  | writeFail
  | fatal (e : Err)
deriving DecidableEq

/-- The status of one worker of `downloadFiles` (main.js lines 109-121):
about to run `queue.pop()`, awaiting `download` of a popped file, or
terminated after popping from an empty queue. -/
inductive WStatus where
  | looping
  | downloading (f : RFile)
  | done
deriving DecidableEq

/-- The download engine's state: the shared queue, the six workers and the
destination directory's contents (each written file with a flag telling
whether its write completed).  `fail` is the run after the first fatal error:
the overall promise has rejected and the disk keeps whatever was written. -/
inductive ExecState where
  | run (queue : List RFile) (workers : List WStatus) (disk : List (RFile × Bool))
  | fail (e : Err) (disk : List (RFile × Bool))
deriving DecidableEq

/-- One cooperative step of worker `w`: since `queue.pop()` and the reading
of `file.url` / `file.path` happen synchronously before the first `await`,
pop-and-start-download is one atomic step; completion (or failure) of the
awaited `download` is the other.  A worker that pops `undefined` leaves the
loop.  The oracle `o` gives each file's download outcome. -/
def workerStep (o : RFile → DOutcome) : ExecState → Nat → ExecState
  | .fail e d, _ => .fail e d
  | .run q ws d, w =>
    match ws.get? w with
    | none => .run q ws d
    | some .done => .run q ws d
    | some .looping =>
      match q.getLast? with
      | none => .run q (ws.set w .done) d
      | some f => .run q.dropLast (ws.set w (.downloading f)) d
    | some (.downloading f) =>
      match o f with
      | .success => .run q (ws.set w .looping) (d ++ [(f, true)])
      | .notFound => .fail (.serverError f.url "NotFound".data) d
      | .writeFail => .fail (.cantWriteFile f.path) (d ++ [(f, false)])
      | .fatal e => .fail e d

/-- Running the engine from a state under a schedule: the list of worker
indices in the order their steps interleave. -/
def execFrom (o : RFile → DOutcome) (s : ExecState) (sched : List Nat) : ExecState :=
  sched.foldl (workerStep o) s

/-- The initial state of `downloadFiles(files, dest)`: the queue seeded with
all files, `maxSimultaneouslyDownloads = 6` workers about to loop, an empty
destination. -/
def initState (files : List RFile) : ExecState :=
  .run files (List.replicate 6 .looping) []

/-- Running `downloadFiles` under a schedule. -/
def downloadFiles (o : RFile → DOutcome) (files : List RFile)
    (sched : List Nat) : ExecState :=
  execFrom o (initState files) sched

/-- The destination directory's contents in a state. -/
def diskOf : ExecState → List (RFile × Bool)
  | .run _ _ d => d
  | .fail _ d => d

/-- The queue's length in a state (an aborted run has no queue left). -/
def queueLen : ExecState → Nat
  | .run q _ _ => q.length
  | .fail _ _ => 0

/-- Whether every worker has terminated normally. -/
def allDone : ExecState → Bool
  | .run _ ws _ => ws.all (fun st => st = .done)
  | .fail _ _ => false

/-- The file a worker status holds in flight, as a multiset. -/
def statusLoad : WStatus → Multiset RFile
  | .downloading f => {f}
  | _ => 0

/-- The files currently in flight across all workers. -/
def inflight (ws : List WStatus) : Multiset RFile :=
  (ws.map statusLoad).sum

/-- The sequential projection of the download phase as `main` observes it:
files are popped from the end of the queue one at a time; the first failing
download rejects the whole phase; each attempt issues one raw request. -/
def downloadSeq (o : RFile → DOutcome) : List RFile → Except Err Unit × List NetCall
  | [] => (.ok (), [])
  | f :: rest =>
    match o f with
    | .success =>
      let r := downloadSeq o rest
      (r.1, .raw f :: r.2)
    | .notFound => (.error (.serverError f.url "NotFound".data), [.raw f])
    | .writeFail => (.error (.cantWriteFile f.path), [.raw f])
    | .fatal e => (.error e, [.raw f])

/-- The environment a run of `main` observes: the result of the
destination-existence check, the transport events answering the releases and
tree requests, the gzip and JSON-parsing behaviour, and each file's download
outcome. -/
structure Env where
  existsDest : Except Err Bool
  releaseEv : HttpEvent
  treeEv : HttpEvent
  gunzip : List Char → Option (List Char)
  parseRelease : List Char → Option (Option (List Char))
  parseTree : List Char → Option TreePayload
  oracle : RFile → DOutcome

/-- The tail of `main` once the revision is resolved (main.js lines 77-82):
fetch the tree, filter by the sub-path, fail with `repoPathNotFound` when
nothing remains, then download.  Returns the result together with the network
calls issued by this part, in order. -/
def mainResolved (env : Env) (repo repoPath hash : List Char) :
    Except Err Unit × List NetCall :=
  match getRepoFiles env.gunzip env.parseTree repo hash env.treeEv with
  | .error e => (.error e, [.api (treeUrl repo hash)])
  | .ok files =>
    let filtered := filterFilesByPath files repoPath
    if filtered = [] then
      (.error (.repoPathNotFound repo repoPath), [.api (treeUrl repo hash)])
    else
      let dl := downloadSeq env.oracle filtered.reverse
      (dl.1, .api (treeUrl repo hash) :: dl.2)

/-- Model of `main()` (main.js lines 52-86) as a function of the argument vector and
the environment, returning the run's result and the network calls issued, in
order.  Argument checks (JavaScript falsiness: a missing or empty string
fails) and the destination-existence check happen before any parsing of the
source or any network activity. -/
def mainModel (env : Env) (sourceArg destArg : Option (List Char)) :
    Except Err Unit × List NetCall :=
  match sourceArg with
  | none => (.error .projectNameRequired, [])
  | some src =>
    if src = [] then (.error .projectNameRequired, [])
    else
      match destArg with
      | none => (.error .desitnationRequired, [])
      | some dest =>
        if dest = [] then (.error .desitnationRequired, [])
        else
          match env.existsDest with
          | .error e => (.error e, [])
          | .ok true => (.error (.destinationExists dest), [])
          | .ok false =>
            match (jsSplit '#' src).filter (fun part => part ≠ []) with
            | [] => (.error .jsTypeError, [])
            | sp0 :: spRest =>
              let repoParts := (jsSplit '/' sp0).filter (fun part => part ≠ [])
              let repo := List.intercalate ['/'] (repoParts.take 2)
              let repoPath := List.intercalate ['/'] (repoParts.drop 2)
              let repoHash := List.intercalate ['#'] spRest
              if repoHash = [] then
                match getLatestRelease env.gunzip env.parseRelease repo env.releaseEv with
                | .error e => (.error e, [.api (releaseUrl repo)])
                | .ok tag =>
                  let hash := orFalsy tag "master".data
                  let r := mainResolved env repo repoPath hash
                  (r.1, .api (releaseUrl repo) :: r.2)
              else
                mainResolved env repo repoPath repoHash

/-- Claim C10 (confirmed): for every HTTP 200 response, `request` selects its
body-bearing branch - `{ found: true }` with the response piped through the
gzip decompressor - whenever the `content-length` header differs from the
literal string `'0'`; in particular a 200 response with no `content-length`
header at all is treated as having a non-empty body and run through
decompression rather than yielding the empty-body outcome. -/
theorem c10_content_length_branch :
    (∀ (url : List Char) (cl enc : Option (List Char)) (msg raw : List Char),
      cl ≠ some ['0'] →
      request url (.resp 200 cl enc msg raw) = .ok ⟨true, some (.gunzipped raw)⟩)
    ∧ ∀ (url : List Char) (enc : Option (List Char)) (msg raw : List Char),
      request url (.resp 200 none enc msg raw) = .ok ⟨true, some (.gunzipped raw)⟩ := by
  constructor
  · intro url cl enc msg raw h
    simp [request, h]
  · intro url enc msg raw
    simp [request]

/-- Witness for C10 at a concrete response without a `content-length`
header. -/
theorem c10_witness :
    request "u".data (.resp 200 none none "OK".data "zz".data)
      = .ok ⟨true, some (.gunzipped "zz".data)⟩ :=
  c10_content_length_branch.1 "u".data none none "OK".data "zz".data (by decide)

/-- Claim C4 counterexample: a 200 response with declared body length `'5'`
and no `content-encoding` header.  The claim requires the body to be exposed
undecoded (the response does not indicate compressed transfer encoding), but
`request` pipes it through the gzip decompressor unconditionally, so the
classification the claim describes differs from the code's. -/
theorem c4_counterexample :
    requestSpec "u".data (.resp 200 (some ['5']) none "OK".data "hi".data)
      = some (.ok ⟨true, some (.identity "hi".data)⟩)
    ∧ request "u".data (.resp 200 (some ['5']) none "OK".data "hi".data)
      = .ok ⟨true, some (.gunzipped "hi".data)⟩
    ∧ requestSpec "u".data (.resp 200 (some ['5']) none "OK".data "hi".data)
      ≠ some (request "u".data (.resp 200 (some ['5']) none "OK".data "hi".data)) := by
  decide

/-- Claim C4 as amended: `request` classifies exactly as - connection failure
→ `networkError`; 200 with `content-length` differing from `'0'` (including
absent) → found, with the body always piped through the streaming gzip
decompressor regardless of `content-encoding`; 200 with `content-length`
exactly `'0'` → found with no stream and no decompression; 404 → not found;
any other status → `serverError` carrying the status text. -/
theorem c4_amended_request_classification :
    (∀ url : List Char, request url .connFail = .error (.networkError url))
    ∧ (∀ (url : List Char) (cl enc : Option (List Char)) (msg raw : List Char),
      cl ≠ some ['0'] →
      request url (.resp 200 cl enc msg raw) = .ok ⟨true, some (.gunzipped raw)⟩)
    ∧ (∀ (url : List Char) (enc : Option (List Char)) (msg raw : List Char),
      request url (.resp 200 (some ['0']) enc msg raw) = .ok ⟨true, none⟩)
    ∧ (∀ (url : List Char) (cl enc : Option (List Char)) (msg raw : List Char),
      request url (.resp 404 cl enc msg raw) = .ok ⟨false, none⟩)
    ∧ ∀ (url : List Char) (st : Nat) (cl enc : Option (List Char)) (msg raw : List Char),
      st ≠ 200 → st ≠ 404 →
      request url (.resp st cl enc msg raw) = .error (.serverError url msg) := by
  refine ⟨fun url => rfl, fun url cl enc msg raw h => by simp [request, h],
    fun url enc msg raw => by simp [request], fun url cl enc msg raw => by simp [request],
    fun url st cl enc msg raw h200 h404 => by simp [request, h200, h404]⟩

/-- Witness for the amended C4 at concrete responses. -/
theorem c4_witness :
    request "u".data (.resp 200 (some ['7']) none "OK".data "hi".data)
      = .ok ⟨true, some (.gunzipped "hi".data)⟩
    ∧ request "u".data (.resp 500 none none "ISE".data [])
      = .error (.serverError "u".data "ISE".data) :=
  ⟨c4_amended_request_classification.2.1 "u".data (some ['7']) none "OK".data
      "hi".data (by decide),
    c4_amended_request_classification.2.2.2.2 "u".data 500 none none "ISE".data []
      (by decide) (by decide)⟩

/-- Claim C9 (confirmed): a missing or empty source argument fails with the
usage-flagged `projectNameRequired` error, a missing or empty destination
with the usage-flagged `desitnationRequired` error, and an existing
destination with the (non-usage) `destinationExists` error - in every case
with an empty network trace: no request is issued before these checks pass. -/
theorem c9_arg_checks_before_network :
    (∀ (env : Env) (destArg : Option (List Char)),
      mainModel env none destArg = (.error .projectNameRequired, []))
    ∧ (∀ (env : Env) (destArg : Option (List Char)),
      mainModel env (some []) destArg = (.error .projectNameRequired, []))
    ∧ (∀ (env : Env) (src : List Char), src ≠ [] →
      mainModel env (some src) none = (.error .desitnationRequired, []))
    ∧ (∀ (env : Env) (src : List Char), src ≠ [] →
      mainModel env (some src) (some []) = (.error .desitnationRequired, []))
    ∧ (∀ (env : Env) (src dest : List Char), src ≠ [] → dest ≠ [] →
      env.existsDest = .ok true →
      mainModel env (some src) (some dest) = (.error (.destinationExists dest), []))
    ∧ errWithHelp .projectNameRequired = true
    ∧ errWithHelp .desitnationRequired = true
    ∧ ∀ dest : List Char, errWithHelp (.destinationExists dest) = false := by
  refine ⟨fun env destArg => rfl, fun env destArg => rfl,
    fun env src h => by simp [mainModel, h],
    fun env src h => by simp [mainModel, h],
    fun env src dest hs hd he => by simp [mainModel, hs, hd, he],
    rfl, rfl, fun dest => rfl⟩

/-- Witness for C9 at concrete arguments. -/
theorem c9_witness :
    mainModel ⟨.ok true, .connFail, .connFail, fun _ => none, fun _ => none,
        fun _ => none, fun _ => .success⟩ (some "o/r".data) (some "/tmp/x".data)
      = (.error (.destinationExists "/tmp/x".data), []) :=
  c9_arg_checks_before_network.2.2.2.2.1 _ "o/r".data "/tmp/x".data
    (by decide) (by decide) rfl

/-- Claim C8 (confirmed): whenever the tree endpoint's payload parses with
`truncated = true`, `getRepoFiles` fails with the `repoTooBig` error
("Repository is too large.") regardless of the payload's tree, and the run
after revision resolution issues only the tree request - no raw-content
download of a partial tree ever happens. -/
theorem c8_truncated_fatal :
    (∀ (gunzip : List Char → Option (List Char))
      (parseTree : List Char → Option TreePayload) (repo hash : List Char)
      (ev : HttpEvent) (body : List Char) (payload : TreePayload),
      fetch gunzip (treeUrl repo hash) ev = .ok (some body) →
      parseTree body = some payload → payload.truncated = true →
      getRepoFiles gunzip parseTree repo hash ev = .error .repoTooBig)
    ∧ (∀ (env : Env) (repo repoPath hash body : List Char) (payload : TreePayload),
      fetch env.gunzip (treeUrl repo hash) env.treeEv = .ok (some body) →
      env.parseTree body = some payload → payload.truncated = true →
      mainResolved env repo repoPath hash
        = (.error .repoTooBig, [.api (treeUrl repo hash)]))
    ∧ errMessage .repoTooBig = "Repository is too large.".data := by
  have key : ∀ (gunzip : List Char → Option (List Char))
      (parseTree : List Char → Option TreePayload) (repo hash : List Char)
      (ev : HttpEvent) (body : List Char) (payload : TreePayload),
      fetch gunzip (treeUrl repo hash) ev = .ok (some body) →
      parseTree body = some payload → payload.truncated = true →
      getRepoFiles gunzip parseTree repo hash ev = .error .repoTooBig := by
    intro gunzip parseTree repo hash ev body payload hf hp ht
    simp [getRepoFiles, hf, hp, ht]
  refine ⟨key, ?_, rfl⟩
  intro env repo repoPath hash body payload hf hp ht
  simp [mainResolved, key env.gunzip env.parseTree repo hash env.treeEv body payload hf hp ht]

/-- Witness for C8: a concrete truncated payload with a non-empty tree. -/
theorem c8_witness :
    mainResolved ⟨.ok false, .connFail, .resp 200 none none "OK".data "b".data,
        Option.some, fun _ => some none,
        fun _ => some ⟨true, [⟨"blob".data, "a.ext".data⟩]⟩, fun _ => .success⟩
      "new/app".data [] "master".data
      = (.error .repoTooBig, [.api (treeUrl "new/app".data "master".data)]) :=
  c8_truncated_fatal.2.1 _ "new/app".data [] "master".data "b".data
    ⟨true, [⟨"blob".data, "a.ext".data⟩]⟩ (by decide) rfl rfl

/-- Claim C1 counterexample: with no explicit revision and no latest release,
a repository whose metadata declares default branch `main` must resolve to
`main` per the claim, but main.js line 76 resolves to the hard-coded literal
`'master'` (and never queries the repository metadata). -/
theorem c1_counterexample :
    resolveRevision [] (.ok none) = .ok "master".data
    ∧ specResolveRevision [] none "main".data = "main".data
    ∧ resolveRevision [] (.ok none)
      ≠ .ok (specResolveRevision [] none "main".data) := by
  decide

/-- Claim C1 as amended: revision resolution follows the order - an explicit
truthy revision is returned unchanged; otherwise a truthy latest-release tag
is used; otherwise (no release, or a release without a truthy tag name) the
hard-coded literal `'master'` is used.  The repository's declared default
branch is never consulted. -/
theorem c1_amended_resolution :
    (∀ (repoHash : List Char) (rel : Except Err (Option (List Char))),
      repoHash ≠ [] → resolveRevision repoHash rel = .ok repoHash)
    ∧ (∀ tag : List Char, tag ≠ [] →
      resolveRevision [] (.ok (some tag)) = .ok tag)
    ∧ resolveRevision [] (.ok none) = .ok "master".data
    ∧ resolveRevision [] (.ok (some [])) = .ok "master".data := by
  refine ⟨fun repoHash rel h => by simp [resolveRevision, h],
    fun tag h => by simp [resolveRevision, orFalsy, h], rfl, by decide⟩

/-- Witness for the amended C1: an explicit revision wins; a release tag
`v2.0.0` is used when there is no explicit revision. -/
theorem c1_witness :
    resolveRevision "dev".data (.ok (some "v2.0.0".data)) = .ok "dev".data
    ∧ resolveRevision [] (.ok (some "v2.0.0".data)) = .ok "v2.0.0".data :=
  ⟨c1_amended_resolution.1 "dev".data (.ok (some "v2.0.0".data)) (by decide),
    c1_amended_resolution.2.1 "v2.0.0".data (by decide)⟩

/-- Claim C6 (confirmed): during revision resolution, a `NotFound` transport
outcome (`request` resolving `{ found: false }`) is non-fatal - resolution
falls through to the next strategy, the literal `'master'` fallback - while a
`ServerError` or `NetworkError` outcome (`request` throwing `e`) aborts
resolution immediately with that same typed error. -/
theorem c6_resolution_failure_policy :
    (∀ (gunzip : List Char → Option (List Char))
      (parseRelease : List Char → Option (Option (List Char)))
      (repo : List Char) (ev : HttpEvent),
      request (releaseUrl repo) ev = .ok ⟨false, none⟩ →
      resolveRevision [] (getLatestRelease gunzip parseRelease repo ev)
        = .ok "master".data)
    ∧ ∀ (gunzip : List Char → Option (List Char))
      (parseRelease : List Char → Option (Option (List Char)))
      (repo : List Char) (ev : HttpEvent) (e : Err),
      request (releaseUrl repo) ev = .error e →
      resolveRevision [] (getLatestRelease gunzip parseRelease repo ev)
        = .error e := by
  constructor
  · intro gunzip parseRelease repo ev h
    simp [resolveRevision, getLatestRelease, fetch, h, orFalsy]
  · intro gunzip parseRelease repo ev e h
    simp [resolveRevision, getLatestRelease, fetch, h]

/-- Witness for C6: a concrete 404 falls through to `'master'`; a concrete
500 aborts with the server error. -/
theorem c6_witness :
    resolveRevision [] (getLatestRelease Option.some (fun _ => some none)
        "new/app".data (.resp 404 none none "Not Found".data []))
      = .ok "master".data
    ∧ resolveRevision [] (getLatestRelease Option.some (fun _ => some none)
        "new/app".data (.resp 500 none none "ISE".data []))
      = .error (.serverError (releaseUrl "new/app".data) "ISE".data) :=
  ⟨c6_resolution_failure_policy.1 Option.some (fun _ => some none) "new/app".data
      (.resp 404 none none "Not Found".data []) (by decide),
    c6_resolution_failure_policy.2 Option.some (fun _ => some none) "new/app".data
      (.resp 500 none none "ISE".data [])
      (.serverError (releaseUrl "new/app".data) "ISE".data) (by decide)⟩

/-- Claim C2 counterexample: a non-truncated tree listing with zero entries
does not fail with a "repository is empty" error before filtering - it flows
through `filterFilesByPath` and fails with the very same
`Repository path not found.` error (same constructor, same message) as a
non-empty listing that filters to zero entries, so the two failures are not
distinguishable. -/
theorem c2_counterexample :
    (mainResolved ⟨.ok false, .connFail, .resp 200 none none "OK".data "b".data,
        Option.some, fun _ => some none, fun _ => some ⟨false, []⟩,
        fun _ => .success⟩ "new/app".data [] "master".data).1
      = .error (.repoPathNotFound "new/app".data [])
    ∧ (mainResolved ⟨.ok false, .connFail, .resp 200 none none "OK".data "b".data,
        Option.some, fun _ => some none,
        fun _ => some ⟨false, [⟨"blob".data, "a.ext".data⟩]⟩,
        fun _ => .success⟩ "new/app".data "d".data "master".data).1
      = .error (.repoPathNotFound "new/app".data "d".data)
    ∧ errMessage (.repoPathNotFound "new/app".data [])
      = errMessage (.repoPathNotFound "new/app".data "d".data)
    ∧ errMessage (.repoPathNotFound "new/app".data [])
      = "Repository path not found.".data := by
  decide

/-- Claim C2 as amended: an empty (non-truncated) tree listing is not
rejected before filtering; it reaches the post-filter length check and fails
with the same `repoPathNotFound` error ("Repository path not found.") that a
non-empty listing filtering to zero entries produces - the code has no
separate "repository is empty" failure, so the two cases are not
distinguishable. -/
theorem c2_amended_empty_vs_path :
    (∀ path : List Char, filterFilesByPath [] path = [])
    ∧ (∀ (env : Env) (repo repoPath hash : List Char) (files : List RFile),
      getRepoFiles env.gunzip env.parseTree repo hash env.treeEv = .ok files →
      filterFilesByPath files repoPath = [] →
      mainResolved env repo repoPath hash
        = (.error (.repoPathNotFound repo repoPath), [.api (treeUrl repo hash)]))
    ∧ ∀ repo p₁ p₂ : List Char,
      errMessage (.repoPathNotFound repo p₁) = errMessage (.repoPathNotFound repo p₂) := by
  refine ⟨fun path => rfl, ?_, fun repo p₁ p₂ => rfl⟩
  intro env repo repoPath hash files hg hf
  simp [mainResolved, hg, hf]

/-- Witness for the amended C2 at the concrete empty-tree environment. -/
theorem c2_witness :
    mainResolved ⟨.ok false, .connFail, .resp 200 none none "OK".data "b".data,
        Option.some, fun _ => some none, fun _ => some ⟨false, []⟩,
        fun _ => .success⟩ "new/app".data [] "master".data
      = (.error (.repoPathNotFound "new/app".data []),
        [.api (treeUrl "new/app".data "master".data)]) :=
  c2_amended_empty_vs_path.2.1 _ "new/app".data [] "master".data [] (by decide) rfl

/-- Claim C5 (confirmed): with an empty sub-path `filterFilesByPath` returns
the list unchanged; with a non-empty sub-path it keeps exactly the entries
whose path starts with the sub-path followed by `'/'`, rewrites each kept
path by stripping that prefix and leaves urls untouched; and the spec's
four-file example filtered by `b/b` yields exactly `{a.ext, b.ext}`. -/
theorem c5_path_filter :
    (∀ files : List RFile, filterFilesByPath files [] = files)
    ∧ (∀ (files : List RFile) (path : List Char) (g : RFile), path ≠ [] →
      (g ∈ filterFilesByPath files path ↔
        ∃ f ∈ files, f.path = path ++ '/' :: g.path ∧ f.url = g.url))
    ∧ filterFilesByPath
        [⟨"a.ext".data, "u1".data⟩, ⟨"b/a.ext".data, "u2".data⟩,
          ⟨"b/b/a.ext".data, "u3".data⟩, ⟨"b/b/b.ext".data, "u4".data⟩]
        "b/b".data
      = [⟨"a.ext".data, "u3".data⟩, ⟨"b.ext".data, "u4".data⟩] := by
  refine ⟨?_, ?_, by decide⟩
  · intro files
    have hall : ∀ f : RFile, List.isPrefixOf ([] : List Char) f.path = true :=
      fun f => by cases hp : f.path <;> rfl
    have hmap : (fun f : RFile => (⟨f.path, f.url⟩ : RFile)) = fun f => f :=
      funext fun f => rfl
    simp [filterFilesByPath, hall, hmap]
  · intro files path g hpath
    have hpre : (if path = [] then [] else path ++ ['/']) = path ++ ['/'] :=
      if_neg hpath
    simp only [filterFilesByPath, hpre, List.mem_map, List.mem_filter]
    constructor
    · rintro ⟨a, ⟨ha, hpf⟩, heq⟩
      obtain ⟨t, ht⟩ := List.isPrefixOf_iff_prefix.mp hpf
      have hdrop : a.path.drop (path ++ ['/']).length = t := by
        rw [← ht]; exact List.drop_left (path ++ ['/']) t
      have hgpath : g.path = t := by rw [← heq]; exact hdrop
      refine ⟨a, ha, ?_, ?_⟩
      · rw [← ht, hgpath, List.append_assoc]; rfl
      · rw [← heq]
    · rintro ⟨f, hf, hfp, hfu⟩
      have hsplit : f.path = (path ++ ['/']) ++ g.path := by
        rw [hfp, List.append_assoc]; rfl
      refine ⟨f, ⟨hf, List.isPrefixOf_iff_prefix.mpr ⟨g.path, hsplit.symm⟩⟩, ?_⟩
      have hdrop : f.path.drop (path ++ ['/']).length = g.path := by
        rw [hsplit]; exact List.drop_left (path ++ ['/']) g.path
      rw [hdrop, hfu]

/-- Witness for C5 at a concrete non-empty sub-path: membership in the
filtered spec example, via the general characterization. -/
theorem c5_witness :
    (⟨"a.ext".data, "u3".data⟩ : RFile) ∈ filterFilesByPath
      [⟨"a.ext".data, "u1".data⟩, ⟨"b/a.ext".data, "u2".data⟩,
        ⟨"b/b/a.ext".data, "u3".data⟩, ⟨"b/b/b.ext".data, "u4".data⟩]
      "b/b".data :=
  (c5_path_filter.2.1 _ "b/b".data ⟨"a.ext".data, "u3".data⟩ (by decide)).mpr
    ⟨⟨"b/b/a.ext".data, "u3".data⟩, by decide, by decide, by decide⟩

/-- Replacing worker `w`'s status replaces exactly its in-flight load:
stated additively to avoid multiset subtraction. -/
theorem inflight_set (ws : List WStatus) (w : Nat) (a b : WStatus)
    (h : ws.get? w = some a) :
    inflight (ws.set w b) + statusLoad a = inflight ws + statusLoad b := by
  induction ws generalizing w with
  | nil => simp at h
  | cons c rest ih =>
    cases w with
    | zero =>
      rw [List.get?_cons_zero] at h
      cases h
      simp only [List.set, inflight, List.map_cons, List.sum_cons]
      abel
    | succ n =>
      rw [List.get?_cons_succ] at h
      simp only [List.set, inflight, List.map_cons, List.sum_cons]
      have := ih n h
      simp only [inflight] at this
      rw [add_assoc, this, ← add_assoc]

/-- All workers done means nothing is in flight. -/
theorem inflight_all_done (ws : List WStatus)
    (h : ws.all (fun st => st = .done) = true) : inflight ws = 0 := by
  induction ws with
  | nil => rfl
  | cons c rest ih =>
    simp only [List.all_cons, Bool.and_eq_true, decide_eq_true_eq] at h
    simp only [inflight, List.map_cons, List.sum_cons, h.1]
    have := ih (by simpa using h.2)
    simp only [inflight] at this
    simp [statusLoad, this]

/-- The download engine's inductive invariant under the all-success oracle:
the queue, the in-flight files and the completed disk together hold exactly
the seeded files; once any worker has terminated the queue is empty; the
worker list is non-empty; and no abort has happened. -/
def EngineInv (files : Multiset RFile) : ExecState → Prop
  | .run q ws d =>
    (↑q + inflight ws + ↑(d.map Prod.fst) = files)
      ∧ ((∃ st ∈ ws, st = WStatus.done) → q = []) ∧ ws ≠ []
  | .fail _ _ => False

/-- One step of any worker preserves the invariant under the all-success
oracle. -/
theorem engineInv_step (files : Multiset RFile) (s : ExecState) (w : Nat)
    (h : EngineInv files s) :
    EngineInv files (workerStep (fun _ => DOutcome.success) s w) := by
  cases s with
  | fail e d => exact h.elim
  | run q ws d =>
    obtain ⟨hsum, hdone, hne⟩ := h
    have hlen : ∀ b : WStatus, ws.set w b ≠ [] := by
      intro b hnil
      have := List.length_set ws w b
      rw [hnil] at this
      exact hne (List.length_eq_zero.mp this.symm)
    cases hget : ws.get? w with
    | none =>
      simp only [workerStep, hget]
      exact ⟨hsum, hdone, hne⟩
    | some st =>
      cases st with
      | done =>
        simp only [workerStep, hget]
        exact ⟨hsum, hdone, hne⟩
      | looping =>
        cases hl : q.getLast? with
        | none =>
          have hq : q = [] := List.getLast?_eq_none_iff.mp hl
          have hinf := inflight_set ws w .looping .done hget
          simp only [statusLoad, add_zero] at hinf
          simp only [workerStep, hget, hl]
          refine ⟨?_, fun _ => hq, hlen _⟩
          rw [hinf]
          exact hsum
        | some f =>
          have hq : q ≠ [] := by
            intro hqe
            rw [hqe] at hl
            simp at hl
          have hinf := inflight_set ws w .looping (.downloading f) hget
          simp only [statusLoad, add_zero] at hinf
          simp only [workerStep, hget, hl]
          refine ⟨?_, ?_, hlen _⟩
          · have hsplit : q.dropLast ++ [f] = q := by
              rcases List.eq_nil_or_concat q with hq0 | ⟨l', b, rfl⟩
              · exact absurd hq0 hq
              · rw [List.concat_eq_append] at hl ⊢
                rw [List.getLast?_concat] at hl
                cases hl
                rw [List.dropLast_concat]
            have hcoe : (↑q : Multiset RFile) = ↑q.dropLast + {f} := by
              conv_lhs => rw [← hsplit]
              rfl
            rw [hinf]
            rw [hcoe] at hsum
            rw [← hsum]
            abel
          · rintro ⟨st, hmem, rfl⟩
            rcases List.mem_or_eq_of_mem_set hmem with hin | habs
            · exact absurd (hdone ⟨.done, hin, rfl⟩) (by
                intro hqe
                rw [hqe] at hl
                simp at hl)
            · exact absurd habs (by simp)
      | downloading f =>
        have hinf := inflight_set ws w (.downloading f) .looping hget
        simp only [statusLoad, add_zero] at hinf
        simp only [workerStep, hget]
        refine ⟨?_, ?_, hlen _⟩
        · have hcoe : (↑(List.map Prod.fst (d ++ [(f, true)])) : Multiset RFile)
              = ↑(d.map Prod.fst) + {f} := by
            rw [List.map_append]
            rfl
          rw [hcoe, ← hsum, ← hinf]
          abel
        · rintro ⟨st, hmem, rfl⟩
          rcases List.mem_or_eq_of_mem_set hmem with hin | habs
          · exact hdone ⟨.done, hin, rfl⟩
          · exact absurd habs (by simp)

/-- The invariant holds along every schedule. -/
theorem engineInv_execFrom (files : Multiset RFile) (sched : List Nat)
    (s : ExecState) (h : EngineInv files s) :
    EngineInv files (execFrom (fun _ => DOutcome.success) s sched) := by
  induction sched generalizing s with
  | nil => exact h
  | cons w rest ih => exact ih _ (engineInv_step files s w h)

/-- Running a concatenated schedule is running the pieces in turn. -/
theorem execFrom_append (o : RFile → DOutcome) (s : ExecState)
    (s1 s2 : List Nat) :
    execFrom o s (s1 ++ s2) = execFrom o (execFrom o s s1) s2 := by
  simp [execFrom, List.foldl_append]

/-- Worker 0 alone drains the queue: `2 * n` of its steps (one pop plus one
completion per file) empty a queue of length `n`, leaving every other
worker's status untouched. -/
theorem engine_drain (n : Nat) : ∀ (q : List RFile) (tl : List WStatus)
    (d : List (RFile × Bool)), q.length = n →
    ∃ d', execFrom (fun _ => DOutcome.success) (.run q (.looping :: tl) d)
      (List.replicate (2 * n) 0) = .run [] (.looping :: tl) d' := by
  induction n with
  | zero =>
    intro q tl d hq
    exact ⟨d, by rw [List.length_eq_zero.mp hq]; rfl⟩
  | succ n ih =>
    intro q tl d hq
    rcases List.eq_nil_or_concat q with rfl | ⟨l', b, rfl⟩
    · simp at hq
    · rw [List.concat_eq_append] at hq ⊢
      have hlen : l'.length = n := by simpa using hq
      obtain ⟨d', hd'⟩ := ih l' tl (d ++ [(b, true)]) hlen
      refine ⟨d', ?_⟩
      have hrep : 2 * (n + 1) = 2 * n + 1 + 1 := by ring
      rw [hrep, List.replicate_succ, List.replicate_succ]
      have hstep1 : workerStep (fun _ => DOutcome.success)
          (.run (l' ++ [b]) (.looping :: tl) d) 0
          = .run l' (.downloading b :: tl) d := by
        simp only [workerStep, List.get?_cons_zero, List.getLast?_concat,
          List.dropLast_concat]
        rfl
      have hstep2 : workerStep (fun _ => DOutcome.success)
          (.run l' (.downloading b :: tl) d) 0
          = .run l' (.looping :: tl) (d ++ [(b, true)]) := by
        simp only [workerStep, List.get?_cons_zero]
        rfl
      calc execFrom (fun _ => DOutcome.success)
            (.run (l' ++ [b]) (.looping :: tl) d)
            (0 :: 0 :: List.replicate (2 * n) 0)
          = execFrom (fun _ => DOutcome.success)
            (.run l' (.looping :: tl) (d ++ [(b, true)]))
            (List.replicate (2 * n) 0) := by
            simp only [execFrom, List.foldl_cons]
            rw [hstep1, hstep2]
        _ = .run [] (.looping :: tl) d' := hd'

/-- From an empty queue, one step of each of the six workers terminates them
all. -/
theorem engine_finish (d : List (RFile × Bool)) :
    allDone (execFrom (fun _ => DOutcome.success)
      (.run [] (List.replicate 6 WStatus.looping) d) [0, 1, 2, 3, 4, 5]) = true := rfl

/-- Unfolding `downloadFiles` to a run from the seeded initial state. -/
theorem downloadFiles_def (o : RFile → DOutcome) (files : List RFile)
    (sched : List Nat) :
    downloadFiles o files sched = execFrom o (initState files) sched := rfl

/-- Claim C3 (confirmed): the queue length never increases at any step of any
worker under any oracle; under failure-free downloads, every schedule that
terminates all six workers leaves on disk exactly the seeded files - each
file downloaded exactly once, none skipped, none repeated (multiset
equality); and for every seeding such a terminating schedule exists, so every
item is eventually popped and the queue empties. -/
theorem c3_download_exactly_once :
    (∀ (o : RFile → DOutcome) (s : ExecState) (w : Nat),
      queueLen (workerStep o s w) ≤ queueLen s)
    ∧ (∀ (files : List RFile) (sched : List Nat),
      allDone (downloadFiles (fun _ => DOutcome.success) files sched) = true →
      (↑((diskOf (downloadFiles (fun _ => DOutcome.success) files sched)).map
        Prod.fst) : Multiset RFile) = ↑files)
    ∧ ∀ files : List RFile, ∃ sched : List Nat,
      allDone (downloadFiles (fun _ => DOutcome.success) files sched) = true := by
  refine ⟨?_, ?_, ?_⟩
  · intro o s w
    cases s with
    | fail e d =>
      simp only [workerStep, queueLen, le_refl]
    | run q ws d =>
      cases hget : ws.get? w with
      | none => simp only [workerStep, hget, queueLen, le_refl]
      | some st =>
        cases st with
        | done => simp only [workerStep, hget, queueLen, le_refl]
        | looping =>
          cases hl : q.getLast? with
          | none => simp only [workerStep, hget, hl, queueLen, le_refl]
          | some f =>
            simp only [workerStep, hget, hl, queueLen, List.length_dropLast]
            omega
        | downloading f =>
          cases ho : o f with
          | success => simp only [workerStep, hget, ho, queueLen, le_refl]
          | notFound =>
            simp only [workerStep, hget, ho, queueLen]
            exact Nat.zero_le _
          | writeFail =>
            simp only [workerStep, hget, ho, queueLen]
            exact Nat.zero_le _
          | fatal e =>
            simp only [workerStep, hget, ho, queueLen]
            exact Nat.zero_le _
  · intro files sched hdone
    have hinit : EngineInv (↑files) (initState files) := by
      refine ⟨?_, ?_, ?_⟩
      · show (↑files : Multiset RFile) + inflight (List.replicate 6 WStatus.looping)
          + ↑(List.map Prod.fst ([] : List (RFile × Bool))) = ↑files
        rw [show inflight (List.replicate 6 WStatus.looping) = 0 from rfl]
        simp
      · rintro ⟨st, hmem, rfl⟩
        exact absurd (List.eq_of_mem_replicate hmem) (by simp)
      · show List.replicate 6 WStatus.looping ≠ []
        simp
    have hinv := engineInv_execFrom (↑files) sched (initState files) hinit
    rw [downloadFiles_def] at hdone ⊢
    cases hstate : execFrom (fun _ => DOutcome.success) (initState files) sched with
    | fail e d =>
      rw [hstate] at hdone
      simp [allDone] at hdone
    | run q ws d =>
      rw [hstate] at hdone hinv
      obtain ⟨hsum, hdq, hne⟩ := hinv
      simp only [allDone] at hdone
      obtain ⟨c, rest, rfl⟩ := List.exists_cons_of_ne_nil hne
      have hcdone : c = .done := by
        have := (List.all_eq_true.mp hdone) c (by simp)
        simpa using this
      have hq : q = [] := hdq ⟨c, by simp, hcdone⟩
      have hinf0 := inflight_all_done _ hdone
      rw [hq, hinf0] at hsum
      simpa [diskOf] using hsum
  · intro files
    refine ⟨List.replicate (2 * files.length) 0 ++ [0, 1, 2, 3, 4, 5], ?_⟩
    obtain ⟨d', hd'⟩ := engine_drain files.length files
      (List.replicate 5 WStatus.looping) [] rfl
    rw [downloadFiles_def, execFrom_append]
    rw [show initState files
      = .run files (WStatus.looping :: List.replicate 5 WStatus.looping) [] from rfl]
    rw [hd']
    exact engine_finish d'

/-- Witness for C3: two files, an interleaved schedule of workers 0, 1 and 2
that terminates all six workers; both files end on disk exactly once. -/
theorem c3_witness :
    allDone (downloadFiles (fun _ => DOutcome.success)
      [⟨"a".data, "u".data⟩, ⟨"b".data, "v".data⟩]
      [0, 1, 0, 1, 2, 0, 1, 2, 3, 4, 5]) = true
    ∧ (↑((diskOf (downloadFiles (fun _ => DOutcome.success)
      [⟨"a".data, "u".data⟩, ⟨"b".data, "v".data⟩]
      [0, 1, 0, 1, 2, 0, 1, 2, 3, 4, 5])).map Prod.fst) : Multiset RFile)
      = ↑[(⟨"a".data, "u".data⟩ : RFile), ⟨"b".data, "v".data⟩] :=
  ⟨by decide, c3_download_exactly_once.2.1
    [⟨"a".data, "u".data⟩, ⟨"b".data, "v".data⟩]
    [0, 1, 0, 1, 2, 0, 1, 2, 3, 4, 5] (by decide)⟩

/-- Claim C7 (confirmed): a `{ found: false }` transport outcome for an
individual file download aborts the whole run with
`serverError(url, 'NotFound')` from any state - whatever other workers have
already written or hold in flight - and preserves the disk as it was; an
aborted run stays aborted with its disk untouched; the disk only ever grows
(no rollback or cleanup at any step); and a mid-write failure aborts the run
leaving the failing file's partial entry on disk. -/
theorem c7_download_notfound_fatal :
    (∀ (o : RFile → DOutcome) (q : List RFile) (ws : List WStatus)
      (d : List (RFile × Bool)) (w : Nat) (f : RFile),
      ws.get? w = some (.downloading f) → o f = .notFound →
      workerStep o (.run q ws d) w = .fail (.serverError f.url "NotFound".data) d)
    ∧ (∀ (o : RFile → DOutcome) (e : Err) (d : List (RFile × Bool)) (w : Nat),
      workerStep o (.fail e d) w = .fail e d)
    ∧ (∀ (o : RFile → DOutcome) (s : ExecState) (w : Nat),
      diskOf s <+: diskOf (workerStep o s w))
    ∧ ∀ (o : RFile → DOutcome) (q : List RFile) (ws : List WStatus)
      (d : List (RFile × Bool)) (w : Nat) (f : RFile),
      ws.get? w = some (.downloading f) → o f = .writeFail →
      workerStep o (.run q ws d) w = .fail (.cantWriteFile f.path) (d ++ [(f, false)]) := by
  refine ⟨?_, fun o e d w => rfl, ?_, ?_⟩
  · intro o q ws d w f hget ho
    simp only [workerStep, hget, ho]
  · intro o s w
    cases s with
    | fail e d => exact List.prefix_refl _
    | run q ws d =>
      cases hget : ws.get? w with
      | none =>
        simp only [workerStep, hget, diskOf]
        exact List.prefix_refl _
      | some st =>
        cases st with
        | done =>
          simp only [workerStep, hget, diskOf]
          exact List.prefix_refl _
        | looping =>
          cases hl : q.getLast? with
          | none =>
            simp only [workerStep, hget, hl, diskOf]
            exact List.prefix_refl _
          | some f =>
            simp only [workerStep, hget, hl, diskOf]
            exact List.prefix_refl _
        | downloading f =>
          cases ho : o f with
          | success =>
            simp only [workerStep, hget, ho, diskOf]
            exact List.prefix_append _ _
          | notFound =>
            simp only [workerStep, hget, ho, diskOf]
            exact List.prefix_refl _
          | writeFail =>
            simp only [workerStep, hget, ho, diskOf]
            exact List.prefix_append _ _
          | fatal e =>
            simp only [workerStep, hget, ho, diskOf]
            exact List.prefix_refl _
  · intro o q ws d w f hget ho
    simp only [workerStep, hget, ho]

/-- Witness for C7: worker 1 hits a 404 on its in-flight file while worker 0
has another file in flight, one file already sits completed on disk, and one
is still queued; the run aborts with `serverError(url, 'NotFound')` and the
disk is exactly what was already written. -/
theorem c7_witness :
    workerStep
      (fun f => if f = ⟨"b".data, "ub".data⟩ then DOutcome.notFound
        else DOutcome.success)
      (.run [⟨"q".data, "uq".data⟩]
        [.downloading ⟨"a".data, "ua".data⟩, .downloading ⟨"b".data, "ub".data⟩]
        [(⟨"c".data, "uc".data⟩, true)]) 1
      = .fail (.serverError "ub".data "NotFound".data)
        [(⟨"c".data, "uc".data⟩, true)] :=
  c7_download_notfound_fatal.1
    (fun f => if f = ⟨"b".data, "ub".data⟩ then DOutcome.notFound
      else DOutcome.success)
    [⟨"q".data, "uq".data⟩]
    [.downloading ⟨"a".data, "ua".data⟩, .downloading ⟨"b".data, "ub".data⟩]
    [(⟨"c".data, "uc".data⟩, true)] 1 ⟨"b".data, "ub".data⟩
    (by decide) (by decide)
